import Mathlib

/-!
Verification of the image engine of the Prefix-C repository
(src/lib/image/image.py) against its natural-language specification.

The Python operators work on integer RGBA pixel data. Machine values are
modelled as unbounded integers: every channel arithmetic step of the source
is an exact integer computation (Python ints / numpy int64 well below 2^63),
and Python floor division // is Int.fdiv. Floating-point intermediate
values (resampling coordinates, ellipse membership tests, convolution
weights) are modelled as exact rationals, matching the real-arithmetic
formulas the specification states.
-/

namespace ImageEngine

/-- Integer clamp to the byte range, translated from _clamp_channel. -/
def clampChannel (v : ℤ) : ℤ :=
  if v < 0 then 0 else if v > 255 then 255 else v

/-- One RGBA pixel: four integer channels. -/
structure RGBA where
  r : ℤ
  g : ℤ
  b : ℤ
  a : ℤ
deriving DecidableEq, Repr

/-- Clamp all four channels of a pixel (np.clip(out, 0, 255) on a pixel). -/
def clampRGBA (p : RGBA) : RGBA :=
  ⟨clampChannel p.r, clampChannel p.g, clampChannel p.b, clampChannel p.a⟩

/-- Alpha blending of a source color onto a destination pixel, translated
from _alpha_blend_pixel (image.py lines 96-127).  Python // is floor
division, hence Int.fdiv. -/
def alphaBlendPixel (dest : RGBA) (color : RGBA) : RGBA :=
  let sa : ℤ := clampChannel color.a
  let invSa : ℤ := 255 - sa
  { r := clampChannel ((sa * color.r + invSa * dest.r).fdiv 255)
    g := clampChannel ((sa * color.g + invSa * dest.g).fdiv 255)
    b := clampChannel ((sa * color.b + invSa * dest.b).fdiv 255)
    a := clampChannel (sa + (dest.a * invSa).fdiv 255) }

/-- The per-pixel computation of the mixalpha branch of _op_blit
(image.py lines 583-589 followed by the final np.clip on line 596):
sa is the source alpha clipped to bytes, the rgb channels are
(sa*src + (255-sa)*dst) // 255 and alpha is sa + dst.a*(255-sa) // 255,
all clipped to the byte range by the trailing np.clip. -/
def blitMixPixel (dst : RGBA) (src : RGBA) : RGBA :=
  let sa : ℤ := clampChannel src.a
  let invSa : ℤ := 255 - sa
  { r := clampChannel ((sa * src.r + invSa * dst.r).fdiv 255)
    g := clampChannel ((sa * src.g + invSa * dst.g).fdiv 255)
    b := clampChannel ((sa * src.b + invSa * dst.b).fdiv 255)
    a := clampChannel (sa + (dst.a * invSa).fdiv 255) }

/-- Python abs on integers. -/
def iabs (x : ℤ) : ℤ := if x < 0 then -x else x

/-- The PNG Paeth predictor, translated from _paeth (image.py 314-323). -/
def paeth (a b c : ℤ) : ℤ :=
  let p : ℤ := a + b - c
  let pa : ℤ := iabs (p - a)
  let pb : ℤ := iabs (p - b)
  let pc : ℤ := iabs (p - c)
  if pa ≤ pb ∧ pa ≤ pc then a
  else if pb ≤ pc then b
  else c

lemma iabs_cases (x : ℤ) : 0 ≤ iabs x ∧ (iabs x = x ∨ iabs x = -x) := by
  unfold iabs
  split_ifs <;> omega

/-- C1: every alpha-blended pixel write (the blendPixel helper used by
POLYGON and ELLIPSE, and the mixAlpha path of BLIT) produces exactly the
standard over-compositing result: outA = sa + dA*(255-sa)/255 and
outC = (sa*srcC + (255-sa)*dstC)/255 per color channel with floor
division, every output channel clamped to the byte range, where sa is
the clamped source alpha. -/
theorem alpha_blend_over_formula (dest color : RGBA) :
    alphaBlendPixel dest color =
      { r := clampChannel ((clampChannel color.a * color.r +
                (255 - clampChannel color.a) * dest.r).fdiv 255)
        g := clampChannel ((clampChannel color.a * color.g +
                (255 - clampChannel color.a) * dest.g).fdiv 255)
        b := clampChannel ((clampChannel color.a * color.b +
                (255 - clampChannel color.a) * dest.b).fdiv 255)
        a := clampChannel (clampChannel color.a +
                (dest.a * (255 - clampChannel color.a)).fdiv 255) } ∧
    blitMixPixel dest color = alphaBlendPixel dest color := by
  exact ⟨rfl, rfl⟩

/-- C2: the Paeth predictor returns whichever of a (left), b (up),
c (up-left) has the minimal absolute distance from p = a + b - c, ties
broken in the priority order a first, then b, then c. -/
theorem paeth_priority (a b c : ℤ) :
    (paeth a b c = a ∨ paeth a b c = b ∨ paeth a b c = c) ∧
    iabs (a + b - c - paeth a b c) ≤ iabs (a + b - c - a) ∧
    iabs (a + b - c - paeth a b c) ≤ iabs (a + b - c - b) ∧
    iabs (a + b - c - paeth a b c) ≤ iabs (a + b - c - c) ∧
    (iabs (a + b - c - a) ≤ iabs (a + b - c - b) ∧
       iabs (a + b - c - a) ≤ iabs (a + b - c - c) → paeth a b c = a) ∧
    (iabs (a + b - c - b) < iabs (a + b - c - a) ∧
       iabs (a + b - c - b) ≤ iabs (a + b - c - c) → paeth a b c = b) ∧
    (iabs (a + b - c - c) < iabs (a + b - c - a) ∧
       iabs (a + b - c - c) < iabs (a + b - c - b) → paeth a b c = c) := by
  have Ha := iabs_cases (a + b - c - a)
  have Hb := iabs_cases (a + b - c - b)
  have Hc := iabs_cases (a + b - c - c)
  unfold paeth
  dsimp only
  split_ifs <;>
    refine ⟨by tauto, ?_, ?_, ?_, ?_, ?_, ?_⟩ <;> omega

/-! Nearest-neighbor resampling index (C3).  _resize_image_int computes
sx = ((arange(target)+0.5) * (src/target) - 0.5).round() and clips to
[0, src-1].  The numpy round method rounds halves to the nearest even
integer.  The float arithmetic is modelled as exact rational
arithmetic. -/

/-- Rounding to the nearest integer with halves sent to the even
neighbor, as numpy round does. -/
def roundHalfEven (q : ℚ) : ℤ :=
  let n : ℤ := ⌊q⌋
  if q - n < 1/2 then n
  else if 1/2 < q - n then n + 1
  else if n % 2 = 0 then n else n + 1

/-- Source index used by nearest-neighbor resampling, translated from
_resize_image_int (image.py 193-198): round the fractional source
coordinate with numpy round, then np.clip to [0, srcDim-1]. -/
def nnSourceIndex (srcDim targetDim i : ℤ) : ℤ :=
  let q : ℚ := ((i : ℚ) + 1/2) * ((srcDim : ℚ) / (targetDim : ℚ)) - 1/2
  min (srcDim - 1) (max 0 (roundHalfEven q))

/-- The claimed mapping: the same formula under ordinary rounding to the
nearest integer (halves away from the floor), clamped the same way. -/
def nnSourceIndexClaimed (srcDim targetDim i : ℤ) : ℤ :=
  min (srcDim - 1) (max 0 (round (((i : ℚ) + 1/2) * ((srcDim : ℚ) / (targetDim : ℚ)) - 1/2)))

/-- C3 counterexample: downscaling a 4-wide source to 2 target pixels,
output coordinate 0 has fractional source coordinate exactly 1/2; the
code (numpy round, half to even) picks source index 0 while the claimed
ordinary rounding picks 1. -/
theorem nn_round_counterexample :
    nnSourceIndex 4 2 0 = 0 ∧ nnSourceIndexClaimed 4 2 0 = 1 := by
  constructor
  · norm_num [nnSourceIndex, roundHalfEven]
  · norm_num [nnSourceIndexClaimed, round_eq]

/-- C3 as amended: nearest-neighbor resampling maps output coordinate i
to source index roundHalfEven((i+0.5)*srcDim/targetDim - 0.5) - rounding
to the nearest integer with ties to the even integer, numpy semantics -
clamped to [0, srcDim-1]. -/
theorem nn_index_amended (srcDim targetDim i : ℤ)
    (hs : 0 < srcDim) (ht : 0 < targetDim) :
    nnSourceIndex srcDim targetDim i =
      min (srcDim - 1)
        (max 0 (roundHalfEven (((i : ℚ) + 1/2) * (srcDim : ℚ) / (targetDim : ℚ) - 1/2))) := by
  unfold nnSourceIndex
  rw [mul_div_assoc]

theorem nn_index_amended_witness :
    (0 : ℤ) < 4 ∧ (0 : ℤ) < 2 ∧
      nnSourceIndex 4 2 1 =
        min (4 - 1) (max 0 (roundHalfEven ((((1 : ℤ) : ℚ) + 1/2) * ((4 : ℤ) : ℚ) / ((2 : ℤ) : ℚ) - 1/2))) :=
  ⟨by decide, by decide, nn_index_amended 4 2 1 (by decide) (by decide)⟩

/-! Ellipse ring membership (C4).  _op_ellipse (image.py 1090-1122) with
fill = 0: the inner radii are the outer radii reduced by the thickness
and clamped at 0; when both inner radii are positive a pixel at offset
(dx,dy) from the center is skipped if it is strictly inside the inner
ellipse; otherwise the operation falls back to filled behavior.  The
float division is modelled as exact rational division. -/

/-- Whether the fill=0 path of _op_ellipse draws the pixel at offset
(dx,dy) from the center (for in-bounds bounding-box pixels), translated
from image.py 1090-1122. -/
def ellipseRingDrawn (rx ry thickness dx dy : ℤ) : Bool :=
  let innerRx : ℤ := max 0 (rx - thickness)
  let innerRy : ℤ := max 0 (ry - thickness)
  let hasInner : Bool := decide (0 < innerRx) && decide (0 < innerRy)
  let nx : ℚ := (dx : ℚ) / (rx : ℚ)
  let ny : ℚ := (dy : ℚ) / (ry : ℚ)
  if 1 < nx * nx + ny * ny then false
  else if hasInner &&
      decide (((dx : ℚ) / (innerRx : ℚ)) * ((dx : ℚ) / (innerRx : ℚ)) +
              ((dy : ℚ) / (innerRy : ℚ)) * ((dy : ℚ) / (innerRy : ℚ)) < 1) then false
  else true

/-- The ring membership exactly as the claim words it: drawn iff inside
the outer ellipse and NOT inside the inner one, inner membership defined
the same way as outer membership (a non-strict comparison with 1). -/
def ellipseRingClaimed (rx ry thickness dx dy : ℤ) : Bool :=
  let innerRx : ℤ := max 0 (rx - thickness)
  let innerRy : ℤ := max 0 (ry - thickness)
  let outer : Bool :=
    decide (((dx : ℚ) / (rx : ℚ)) * ((dx : ℚ) / (rx : ℚ)) +
            ((dy : ℚ) / (ry : ℚ)) * ((dy : ℚ) / (ry : ℚ)) ≤ 1)
  if 0 < innerRx ∧ 0 < innerRy then
    outer && !(decide (((dx : ℚ) / (innerRx : ℚ)) * ((dx : ℚ) / (innerRx : ℚ)) +
                       ((dy : ℚ) / (innerRy : ℚ)) * ((dy : ℚ) / (innerRy : ℚ)) ≤ 1))
  else outer

/-- The ring membership as amended: inner membership is strict, so pixels
exactly on the inner ellipse boundary are drawn. -/
def ellipseRingStrict (rx ry thickness dx dy : ℤ) : Bool :=
  let innerRx : ℤ := max 0 (rx - thickness)
  let innerRy : ℤ := max 0 (ry - thickness)
  let outer : Bool :=
    decide (((dx : ℚ) / (rx : ℚ)) * ((dx : ℚ) / (rx : ℚ)) +
            ((dy : ℚ) / (ry : ℚ)) * ((dy : ℚ) / (ry : ℚ)) ≤ 1)
  if 0 < innerRx ∧ 0 < innerRy then
    outer && !(decide (((dx : ℚ) / (innerRx : ℚ)) * ((dx : ℚ) / (innerRx : ℚ)) +
                       ((dy : ℚ) / (innerRy : ℚ)) * ((dy : ℚ) / (innerRy : ℚ)) < 1))
  else outer

/-- C4 counterexample: rx = ry = 4, thickness = 2 (inner radii 2), the
pixel at offset (2,0) lies exactly on the inner ellipse boundary; the
code draws it while the claim (non-strict inner membership) excludes
it. -/
theorem ellipse_ring_counterexample :
    ellipseRingDrawn 4 4 2 2 0 = true ∧ ellipseRingClaimed 4 4 2 2 0 = false := by
  constructor
  · norm_num [ellipseRingDrawn]
  · norm_num [ellipseRingClaimed]

/-- C4 as amended: for an unfilled ELLIPSE with rx>0, ry>0, thickness>0,
a pixel at offset (dx,dy) is drawn iff it is inside the outer ellipse
((dx/rx)^2+(dy/ry)^2 <= 1) and not STRICTLY inside the inner ellipse
((dx/irx)^2+(dy/iry)^2 < 1, so the inner boundary itself is drawn),
with inner radii rx-thickness, ry-thickness clamped at 0; if either
inner radius collapses to 0 the operation behaves as filled. -/
theorem ellipse_ring_amended (rx ry thickness dx dy : ℤ)
    (hrx : 0 < rx) (hry : 0 < ry) (ht : 0 < thickness) :
    ellipseRingDrawn rx ry thickness dx dy = ellipseRingStrict rx ry thickness dx dy := by
  unfold ellipseRingDrawn ellipseRingStrict
  dsimp only
  split_ifs <;> simp_all

theorem ellipse_ring_amended_witness :
    (0 : ℤ) < 4 ∧ (0 : ℤ) < 3 ∧ (0 : ℤ) < 2 ∧
      ellipseRingDrawn 4 3 2 1 1 = ellipseRingStrict 4 3 2 1 1 :=
  ⟨by decide, by decide, by decide, ellipse_ring_amended 4 3 2 1 1 (by decide) (by decide) (by decide)⟩

/-! BLIT (C6).  _op_blit (image.py 533-597) converts the 1-based
placement (x,y) to 0-based, early-returns a copy of the destination when
the placed rectangle cannot overlap, computes the overlapping region in
both coordinate spaces, and blends or stencil-copies the source over it.
The final np.clip clamps every channel of the returned buffer in the
overlap path.  The result is modelled pixelwise as a pure function. -/

/-- Early-return condition of _op_blit (image.py 559): the placed source
rectangle lies fully outside the destination. -/
def noBlitOverlap (wSrc hSrc wDst hDst x y : ℤ) : Prop :=
  x - 1 ≥ wDst ∨ y - 1 ≥ hDst ∨ x - 1 + wSrc ≤ 0 ∨ y - 1 + hSrc ≤ 0

instance (wSrc hSrc wDst hDst x y : ℤ) :
    Decidable (noBlitOverlap wSrc hSrc wDst hDst x y) := by
  unfold noBlitOverlap; infer_instance

/-- Pixel (px,py) of the buffer returned by _op_blit, translated from
image.py 553-597.  src and dst are the source and destination pixel
grids, (x,y) the 1-based placement, mix the mixalpha flag. -/
def blitResult (wSrc hSrc wDst hDst : ℤ) (src dst : ℤ → ℤ → RGBA)
    (x y : ℤ) (mix : Bool) (px py : ℤ) : RGBA :=
  let x0 : ℤ := x - 1
  let y0 : ℤ := y - 1
  if noBlitOverlap wSrc hSrc wDst hDst x y then dst px py
  else
    let srcX0 : ℤ := max 0 (-x0)
    let srcY0 : ℤ := max 0 (-y0)
    let dstX0 : ℤ := max 0 x0
    let dstY0 : ℤ := max 0 y0
    let overW : ℤ := min (wSrc - srcX0) (wDst - dstX0)
    let overH : ℤ := min (hSrc - srcY0) (hDst - dstY0)
    if overW ≤ 0 ∨ overH ≤ 0 then dst px py
    else if dstX0 ≤ px ∧ px < dstX0 + overW ∧ dstY0 ≤ py ∧ py < dstY0 + overH then
      let s : RGBA := src (srcX0 + (px - dstX0)) (srcY0 + (py - dstY0))
      if mix then blitMixPixel (dst px py) s
      else if s.a ≠ 0 then clampRGBA s else clampRGBA (dst px py)
    else clampRGBA (dst px py)

/-- A concrete fully-opaque 2x2 source image for the blit scenario. -/
def blitSrcEx : ℤ → ℤ → RGBA := fun i j =>
  if i = 0 ∧ j = 0 then ⟨10, 20, 30, 255⟩
  else if i = 1 ∧ j = 0 then ⟨40, 50, 60, 255⟩
  else if i = 0 ∧ j = 1 then ⟨70, 80, 90, 255⟩
  else ⟨100, 110, 120, 255⟩

/-- A transparent-black destination image. -/
def blitDstEx : ℤ → ℤ → RGBA := fun _ _ => ⟨0, 0, 0, 0⟩

/-- Expected result of blitting blitSrcEx onto a 4x4 blitDstEx at the
1-based position (2,2): the four source pixels sit at zero-based
rows/cols (1,1)-(2,2), everything else is unchanged. -/
def blitExpectedEx : ℤ → ℤ → RGBA := fun px py =>
  if 1 ≤ px ∧ px ≤ 2 ∧ 1 ≤ py ∧ py ≤ 2 then blitSrcEx (px - 1) (py - 1)
  else ⟨0, 0, 0, 0⟩

/-- C6: BLIT places the source top-left at the 1-based destination
coordinate; with no overlap the result is an unmodified copy of the
destination at every pixel; and a fully-opaque 2x2 source blitted onto a
4x4 transparent-black destination at (2,2) with mixalpha puts the 4
source pixels exactly at zero-based (1,1)-(2,2) and leaves the rest
unchanged.  The operation itself is a pure function of its inputs. -/
theorem blit_placement_spec (wSrc hSrc wDst hDst x y : ℤ)
    (src dst : ℤ → ℤ → RGBA) (mix : Bool)
    (hno : noBlitOverlap wSrc hSrc wDst hDst x y) :
    (∀ px py : ℤ, blitResult wSrc hSrc wDst hDst src dst x y mix px py = dst px py) ∧
    (∀ px ∈ Finset.range 4, ∀ py ∈ Finset.range 4,
      blitResult 2 2 4 4 blitSrcEx blitDstEx 2 2 true (px : ℤ) (py : ℤ) =
        blitExpectedEx (px : ℤ) (py : ℤ)) := by
  constructor
  · intro px py
    unfold blitResult
    rw [if_pos hno]
  · decide

theorem blit_placement_spec_witness :
    noBlitOverlap 2 2 4 4 10 10 ∧
      blitResult 2 2 4 4 blitSrcEx blitDstEx 10 10 true 0 0 = blitDstEx 0 0 :=
  ⟨by decide,
   (blit_placement_spec 2 2 4 4 10 10 blitSrcEx blitDstEx true (by decide)).1 0 0⟩

/-! Per-channel threshold replace (C7).  _op_thresh_generic
(image.py 1410-1449) replaces every pixel whose selected channel equals
the threshold value by the clamped replacement color; the alpha channel
is overwritten only when the replacement has 4 components, and
non-matching pixels pass through untouched. -/

/-- Channel selector for a pixel: 0=R, 1=G, 2=B, 3=A. -/
def rgbaChannel (p : RGBA) : Fin 4 → ℤ
  | 0 => p.r
  | 1 => p.g
  | 2 => p.b
  | 3 => p.a

/-- The per-pixel computation of _op_thresh_generic: dA is some v when
the replacement color supplied 4 components, none when it supplied 3. -/
def threshPixel (ch : Fin 4) (value dR dG dB : ℤ) (dA : Option ℤ) (p : RGBA) : RGBA :=
  if rgbaChannel p ch = value then
    { r := clampChannel dR
      g := clampChannel dG
      b := clampChannel dB
      a := match dA with
           | some v => clampChannel v
           | none => p.a }
  else p

/-- C7: THRESHHOLD_R/G/B/A overwrites exactly the pixels whose named
channel equals the threshold value with the (clamped) replacement color,
overwriting alpha only when the replacement has 4 components (a
3-component replacement preserves the matched pixel's alpha), and passes
all other pixels through unchanged; in particular THRESHHOLD_R with
value 128 and replacement [0,0,0,255] turns a pixel with R=128 into
opaque black. -/
theorem threshold_exact_match (ch : Fin 4) (value dR dG dB : ℤ)
    (dA : Option ℤ) (p : RGBA) :
    (rgbaChannel p ch = value →
      threshPixel ch value dR dG dB dA p =
        { r := clampChannel dR, g := clampChannel dG, b := clampChannel dB
          a := dA.elim p.a clampChannel }) ∧
    (rgbaChannel p ch ≠ value → threshPixel ch value dR dG dB dA p = p) ∧
    threshPixel 0 128 0 0 0 (some 255) ⟨128, 200, 50, 7⟩ = ⟨0, 0, 0, 255⟩ := by
  refine ⟨fun h => ?_, fun h => ?_, by decide⟩
  · unfold threshPixel
    rw [if_pos h]
    cases dA <;> rfl
  · unfold threshPixel
    rw [if_neg h]

theorem threshold_exact_match_witness :
    rgbaChannel ⟨128, 1, 2, 3⟩ 0 = 128 ∧
      threshPixel 0 128 5 6 7 none ⟨128, 1, 2, 3⟩ =
        { r := clampChannel 5, g := clampChannel 6, b := clampChannel 7
          a := (none : Option ℤ).elim (RGBA.a ⟨128, 1, 2, 3⟩) clampChannel } :=
  ⟨by decide, (threshold_exact_match 0 128 5 6 7 none ⟨128, 1, 2, 3⟩).1 (by decide)⟩

/-! SCALE argument interpretation (C8).  _op_scale (image.py 600-644)
treats its two float arguments as multiplicative factors when both have
absolute value at most 8, and as absolute target dimensions otherwise;
either way the floored target dimensions are rejected when non-positive
before any resampling happens.  Floats are modelled as exact
rationals. -/

/-- The positivity gate of _op_scale (image.py 635-636), applied to the
already-computed target dimensions. -/
def checkedTargetDims (tW tH : ℤ) : Except String (ℤ × ℤ) :=
  if tW ≤ 0 ∨ tH ≤ 0 then Except.error "SCALE target dimensions must be positive"
  else Except.ok (tW, tH)

/-- Target-dimension computation of _op_scale (image.py 623-636). -/
def scaleTargetDims (srcW srcH : ℤ) (sx sy : ℚ) : Except String (ℤ × ℤ) :=
  if |sx| ≤ 8 ∧ |sy| ≤ 8 then
    checkedTargetDims ⌊(srcW : ℚ) * sx⌋ ⌊(srcH : ℚ) * sy⌋
  else checkedTargetDims ⌊sx⌋ ⌊sy⌋

/-- C8: SCALE interprets its arguments as multiplicative factors exactly
when both have absolute value at most 8 (target = floor(src*factor)),
and as floored absolute target dimensions otherwise; in both modes a
non-positive resulting dimension is rejected with an error before any
resampling, and positive dimensions are accepted. -/
theorem scale_dims_spec (srcW srcH : ℤ) (sx sy : ℚ) :
    (|sx| ≤ 8 ∧ |sy| ≤ 8 →
      scaleTargetDims srcW srcH sx sy =
        checkedTargetDims ⌊(srcW : ℚ) * sx⌋ ⌊(srcH : ℚ) * sy⌋) ∧
    (¬(|sx| ≤ 8 ∧ |sy| ≤ 8) →
      scaleTargetDims srcW srcH sx sy = checkedTargetDims ⌊sx⌋ ⌊sy⌋) ∧
    (∀ tW tH : ℤ, tW ≤ 0 ∨ tH ≤ 0 →
      checkedTargetDims tW tH = Except.error "SCALE target dimensions must be positive") ∧
    (∀ tW tH : ℤ, 0 < tW → 0 < tH → checkedTargetDims tW tH = Except.ok (tW, tH)) := by
  refine ⟨fun h => ?_, fun h => ?_, fun tW tH h => ?_, fun tW tH h1 h2 => ?_⟩
  · unfold scaleTargetDims; rw [if_pos h]
  · unfold scaleTargetDims; rw [if_neg h]
  · unfold checkedTargetDims; rw [if_pos h]
  · unfold checkedTargetDims; rw [if_neg (by omega)]

theorem scale_dims_spec_witness :
    (|(2 : ℚ)| ≤ 8 ∧ |(2 : ℚ)| ≤ 8) ∧ scaleTargetDims 3 5 2 2 = Except.ok (6, 10) := by
  have h1 : |(2 : ℚ)| ≤ 8 ∧ |(2 : ℚ)| ≤ 8 := by norm_num
  refine ⟨h1, ?_⟩
  rw [(scale_dims_spec 3 5 2 2).1 h1]
  norm_num [checkedTargetDims]

/-! POLYGON ring validation (C9).  _op_polygon (image.py 856-893)
rejects a point list with fewer than 2 points, converts points to
0-based, and rejects a ring whose first point differs from its last -
all before the output buffer is copied from the input (line 898), so no
drawing happens on the error path.  The drawing stage is a parameter of
the model, so rejection is proved for every possible drawing
function. -/

/-- The validation and dispatch structure of _op_polygon: draw is the
rasterization stage that runs only after validation passes (it receives
the 0-based converted points). -/
def polygonOp (draw : (ℤ → ℤ → RGBA) → List (ℤ × ℤ) → ℤ → ℤ → RGBA)
    (img : ℤ → ℤ → RGBA) (pts : List (ℤ × ℤ)) : Except String (ℤ → ℤ → RGBA) :=
  if pts.length < 2 then Except.error "POLYGON needs at least 2 points"
  else
    let pts0 : List (ℤ × ℤ) := pts.map (fun p => (p.1 - 1, p.2 - 1))
    if pts0.head? ≠ pts0.getLast? then
      Except.error "POLYGON: first point must equal last point"
    else Except.ok (draw img pts0)

lemma polygon_shift_injective :
    Function.Injective (fun p : ℤ × ℤ => (p.1 - 1, p.2 - 1)) := by
  intro a b h
  cases a; cases b
  simp only [Prod.mk.injEq] at h ⊢
  omega

/-- C9: a POLYGON call whose point list has fewer than 2 points, or
whose first point differs from its last, fails with an error and
produces no drawn image, whatever the rasterization stage would do. -/
theorem polygon_rejects_open_ring
    (draw : (ℤ → ℤ → RGBA) → List (ℤ × ℤ) → ℤ → ℤ → RGBA)
    (img : ℤ → ℤ → RGBA) (pts : List (ℤ × ℤ))
    (h : pts.length < 2 ∨ pts.head? ≠ pts.getLast?) :
    ∃ msg, polygonOp draw img pts = Except.error msg := by
  unfold polygonOp
  by_cases hl : pts.length < 2
  · rw [if_pos hl]; exact ⟨_, rfl⟩
  · rw [if_neg hl]
    have hne : pts.head? ≠ pts.getLast? := h.resolve_left hl
    have hmap : (pts.map (fun p : ℤ × ℤ => (p.1 - 1, p.2 - 1))).head? ≠
        (pts.map (fun p : ℤ × ℤ => (p.1 - 1, p.2 - 1))).getLast? := by
      rw [List.head?_map, List.getLast?_map]
      intro hc
      exact hne (Option.map_injective polygon_shift_injective hc)
    rw [if_pos hmap]
    exact ⟨_, rfl⟩

theorem polygon_rejects_open_ring_witness :
    (([((1 : ℤ), (1 : ℤ)), (2, 2)] : List (ℤ × ℤ)).length < 2 ∨
       ([((1 : ℤ), (1 : ℤ)), (2, 2)] : List (ℤ × ℤ)).head? ≠
         ([((1 : ℤ), (1 : ℤ)), (2, 2)] : List (ℤ × ℤ)).getLast?) ∧
    ∃ msg, polygonOp (fun i _ => i) blitDstEx [((1 : ℤ), (1 : ℤ)), (2, 2)] =
      Except.error msg :=
  ⟨Or.inr (by decide),
   polygon_rejects_open_ring (fun i _ => i) blitDstEx _ (Or.inr (by decide))⟩

/-! EDGE versus BLUR separable Gaussian convolution (C5).  Both build
the same normalized 1-D Gaussian kernel of size 2r+1 with
sigma = max(0.5, r/2) and run a horizontal then a vertical pass, but
the internal blur of _op_edge (image.py 2025-2084) convolves each line
with np.convolve in same mode, which pads with ZEROS outside the image,
while _op_blur (image.py 836-853) pads with np.pad in edge mode, which
replicates the border samples.  Both passes are modelled over an
abstract kernel (the shared Gaussian weights are irrational), with the
float line convolutions as exact rational sums. -/

/-- Zero padding used implicitly by np.convolve in same mode. -/
def zeroPad (f : ℤ → ℚ) (n x : ℤ) : ℚ := if 0 ≤ x ∧ x < n then f x else 0

/-- Replicate padding of np.pad in edge mode: out-of-range indices are
clamped to the nearest valid sample. -/
def replPad (f : ℤ → ℚ) (n x : ℤ) : ℚ := f (min (n - 1) (max 0 x))

/-- One line pass of the internal blur of _op_edge: np.convolve with the
kernel in same mode, i.e. true convolution over zero-padded samples
(image.py 2040, 2045). -/
def convSame (k : ℤ → ℚ) (r n : ℤ) (f : ℤ → ℚ) (x : ℤ) : ℚ :=
  Finset.sum (Finset.Icc (-r) r) (fun j => k j * zeroPad f n (x - j))

/-- One line pass of _op_blur: the padded-and-stacked tensordot of
image.py 843-850, i.e. correlation over replicate-padded samples. -/
def convRepl (k : ℤ → ℚ) (r n : ℤ) (f : ℤ → ℚ) (x : ℤ) : ℚ :=
  Finset.sum (Finset.Icc (-r) r) (fun j => k j * replPad f n (x + j))

/-- The 2-D blur computed inside _op_edge: horizontal pass along x
for every row, then vertical pass along y. -/
def edgeBlur2D (k : ℤ → ℚ) (r w h : ℤ) (f : ℤ → ℤ → ℚ) (x y : ℤ) : ℚ :=
  convSame k r h (fun t => convSame k r w (fun s => f s t) x) y

/-- The 2-D convolution of _op_blur on a single plane: horizontal pass
then vertical pass, replicate padding in both. -/
def blurOpConv2D (k : ℤ → ℚ) (r w h : ℤ) (f : ℤ → ℤ → ℚ) (x y : ℤ) : ℚ :=
  convRepl k r h (fun t => convRepl k r w (fun s => f s t) x) y

lemma sum_Icc_neg_reindex (r : ℤ) (g : ℤ → ℚ) :
    Finset.sum (Finset.Icc (-r) r) g = Finset.sum (Finset.Icc (-r) r) (fun j => g (-j)) := by
  refine Finset.sum_equiv (Equiv.neg ℤ) ?_ ?_
  · intro i
    simp only [Finset.mem_Icc, Equiv.neg_apply]
    omega
  · intro i _
    simp

lemma conv_interior_eq (k : ℤ → ℚ) (r n x : ℤ) (f : ℤ → ℚ)
    (hsym : ∀ j, k j = k (-j)) (h1 : r ≤ x) (h2 : x < n - r) :
    convSame k r n f x = convRepl k r n f x := by
  unfold convSame convRepl
  rw [sum_Icc_neg_reindex r (fun j => k j * zeroPad f n (x - j))]
  refine Finset.sum_congr rfl ?_
  intro j hj
  rw [Finset.mem_Icc] at hj
  rw [← hsym j]
  have e1 : x - -j = x + j := by ring
  rw [e1]
  unfold zeroPad replPad
  rw [if_pos (show 0 ≤ x + j ∧ x + j < n by omega)]
  have e2 : min (n - 1) (max 0 (x + j)) = x + j := by omega
  rw [e2]

/-- A concrete symmetric normalized kernel of radius 1 (same shape as
the radius-1 Gaussian: positive center weight, equal positive side
weights, sum 1) used to exhibit the border disagreement. -/
def k3 : ℤ → ℚ := fun j =>
  if j = 0 then 1/2 else if j = 1 then 1/4 else if j = -1 then 1/4 else 0

/-- C5 counterexample: for a symmetric normalized radius-1 kernel with
nonzero side weights (as the Gaussian kernel has) the internal blur of
EDGE and the convolution of BLUR already disagree on the single pixel of
a constant 1x1 luminance plane: zero padding darkens the border pixel
while replicate padding preserves it, so the two blurs are not equal on
every pixel. -/
theorem edge_blur_padding_counterexample :
    (∀ j : ℤ, k3 j = k3 (-j)) ∧
    Finset.sum (Finset.Icc (-1 : ℤ) 1) k3 = 1 ∧
    edgeBlur2D k3 1 1 1 (fun _ _ => 255) 0 0 ≠ blurOpConv2D k3 1 1 1 (fun _ _ => 255) 0 0 := by
  have hIcc : Finset.Icc (-1 : ℤ) 1 = {-1, 0, 1} := by decide
  refine ⟨?_, ?_, ?_⟩
  · intro j
    unfold k3
    split_ifs <;> first | rfl | omega
  · rw [hIcc, Finset.sum_insert (by decide), Finset.sum_insert (by decide),
      Finset.sum_singleton]
    norm_num [k3]
  · unfold edgeBlur2D blurOpConv2D convSame convRepl zeroPad replPad
    rw [hIcc]
    rw [Finset.sum_insert (by decide), Finset.sum_insert (by decide), Finset.sum_singleton]
    norm_num [k3]

/-- C5 as amended: for every symmetric kernel (the shared Gaussian
kernel is symmetric), the blur computed inside EDGE and the convolution
of the BLUR operator agree on every pixel whose distance from each image
border is at least the radius; border pixels can differ because EDGE
zero-pads (np.convolve same mode) while BLUR replicate-pads. -/
theorem edge_blur_interior_agrees (k : ℤ → ℚ) (r w h x y : ℤ) (f : ℤ → ℤ → ℚ)
    (hsym : ∀ j, k j = k (-j))
    (hx1 : r ≤ x) (hx2 : x < w - r) (hy1 : r ≤ y) (hy2 : y < h - r) :
    edgeBlur2D k r w h f x y = blurOpConv2D k r w h f x y := by
  unfold edgeBlur2D blurOpConv2D
  have hinner : (fun t => convSame k r w (fun s => f s t) x) =
      (fun t => convRepl k r w (fun s => f s t) x) :=
    funext fun t => conv_interior_eq k r w x (fun s => f s t) hsym hx1 hx2
  rw [hinner]
  exact conv_interior_eq k r h y _ hsym hy1 hy2

theorem edge_blur_interior_agrees_witness :
    edgeBlur2D k3 1 3 3 (fun i j => (i : ℚ) + 2 * (j : ℚ)) 1 1 =
      blurOpConv2D k3 1 3 3 (fun i j => (i : ℚ) + 2 * (j : ℚ)) 1 1 :=
  edge_blur_interior_agrees k3 1 3 3 1 1 (fun i j => (i : ℚ) + 2 * (j : ℚ))
    (by intro j; unfold k3; split_ifs <;> first | rfl | omega)
    (by decide) (by decide) (by decide) (by decide)

/-! Pure-Python PNG decoder (C10).  _decode_png (image.py 326-411)
walks the chunk stream reading the 4-byte big-endian length, the 4-byte
type and the chunk data, then advances pos by length + 4, skipping the
CRC field without ever reading it; after the walk it checks the header,
inflates the concatenated IDAT data (zlib, modelled as an abstract
inflate function), checks the decompressed length and unfilters each
row.  Bytes are naturals; the loop is written with an explicit fuel
argument that starts at the length of the byte list, which strictly
exceeds the chunk count since every iteration consumes at least 12
bytes (walkF_fuel_irrelevant shows the fuel is an artifact). -/

/-- Big-endian 32-bit read (struct.unpack of a 4-byte slice). -/
def be32 (bytes : List ℕ) : ℕ :=
  bytes.foldl (fun acc b => acc * 256 + b) 0

/-- State of the chunk walk: the IHDR fields
(width, height, bit depth, color type, interlace) once seen, and the
concatenated IDAT payload. -/
structure WalkState where
  hdr : Option (ℕ × ℕ × ℕ × ℕ × ℕ)
  idat : List ℕ
deriving DecidableEq, Repr

/-- Chunk type IHDR as bytes. -/
def ihdrType : List ℕ := [73, 72, 68, 82]

/-- Chunk type IDAT as bytes. -/
def idatType : List ℕ := [73, 68, 65, 84]

/-- Chunk type IEND as bytes. -/
def iendType : List ℕ := [73, 69, 78, 68]

/-- Processing of one chunk body (image.py 347-356).  The returned Bool
is false when the walk stops (IEND).  An IHDR whose data is not exactly
13 bytes makes struct.unpack raise, hence the error. -/
def stepChunk (st : WalkState) (ctype chunk : List ℕ) : Except String (WalkState × Bool) :=
  if ctype = ihdrType then
    if chunk.length ≠ 13 then Except.error "Malformed PNG: bad IHDR length"
    else
      let w : ℕ := be32 (chunk.take 4)
      let h : ℕ := be32 ((chunk.drop 4).take 4)
      let bitDepth : ℕ := chunk.getD 8 0
      let colorType : ℕ := chunk.getD 9 0
      let comp : ℕ := chunk.getD 10 0
      let filt : ℕ := chunk.getD 11 0
      let interlace : ℕ := chunk.getD 12 0
      if comp ≠ 0 ∨ filt ≠ 0 then
        Except.error "Unsupported PNG compression or filter method"
      else Except.ok ({ st with hdr := some (w, h, bitDepth, colorType, interlace) }, true)
  else if ctype = idatType then Except.ok ({ st with idat := st.idat ++ chunk }, true)
  else if ctype = iendType then Except.ok (st, false)
  else Except.ok (st, true)

/-- The chunk-walk loop of _decode_png (image.py 340-356) on the byte
suffix after the signature: while at least 8 bytes remain, read length
and type, take the (possibly truncated) chunk data, process it and skip
4 further bytes - the CRC - before recursing. -/
def walkF (fuel : ℕ) (st : WalkState) (xs : List ℕ) : Except String WalkState :=
  if xs.length < 8 then Except.ok st
  else match fuel with
  | 0 => Except.ok st
  | fuel' + 1 =>
    match stepChunk st ((xs.drop 4).take 4) ((xs.drop 8).take (be32 (xs.take 4))) with
    | Except.error e => Except.error e
    | Except.ok (st', cont) =>
      if cont then walkF fuel' st' ((xs.drop 8).drop (be32 (xs.take 4) + 4))
      else Except.ok st'

/-- The chunk walk with its canonical (always sufficient) fuel. -/
def walkChunks (st : WalkState) (xs : List ℕ) : Except String WalkState :=
  walkF xs.length st xs

/-- The fuel of walkF is an artifact: any fuel of at least the byte
count gives the same result, since each iteration consumes at least 12
bytes. -/
theorem walkF_fuel_irrelevant :
    ∀ n f1 f2 (st : WalkState) (xs : List ℕ), xs.length ≤ n →
      xs.length ≤ f1 → xs.length ≤ f2 → walkF f1 st xs = walkF f2 st xs := by
  intro n
  induction n with
  | zero =>
    intro f1 f2 st xs hn _ _
    have : xs.length < 8 := by omega
    unfold walkF
    rw [if_pos this, if_pos this]
  | succ n ih =>
    intro f1 f2 st xs hn h1 h2
    by_cases hlt : xs.length < 8
    · unfold walkF
      rw [if_pos hlt, if_pos hlt]
    · obtain ⟨f1', rfl⟩ : ∃ k, f1 = k + 1 := ⟨f1 - 1, by omega⟩
      obtain ⟨f2', rfl⟩ : ∃ k, f2 = k + 1 := ⟨f2 - 1, by omega⟩
      unfold walkF
      rw [if_neg hlt, if_neg hlt]
      cases hstep : stepChunk st ((xs.drop 4).take 4) ((xs.drop 8).take (be32 (xs.take 4))) with
      | error e => rfl
      | ok p =>
        rcases p with ⟨st', cont⟩
        cases cont with
        | false => rfl
        | true =>
          simp only
          have hrest : ((xs.drop 8).drop (be32 (xs.take 4) + 4)).length =
              xs.length - (12 + be32 (xs.take 4)) := by
            simp [List.length_drop]
            omega
          exact ih f1' f2' st' _ (by omega) (by omega) (by omega)

/-- Byte streams identical except possibly in the 4 CRC bytes that
follow each chunk's data (and agreeing on any trailing fragment shorter
than a chunk header), checked with the same stream walk the decoder
performs.  The fuel mirrors walkF and is likewise always sufficient at
the canonical value. -/
def crcEquivF (fuel : ℕ) (xs ys : List ℕ) : Bool :=
  if xs.length < 8 then xs == ys
  else match fuel with
  | 0 => xs == ys
  | fuel' + 1 =>
    (xs.length == ys.length) && (xs.take 8 == ys.take 8) &&
    ((xs.drop 8).take (be32 (xs.take 4)) == (ys.drop 8).take (be32 (xs.take 4))) &&
    crcEquivF fuel' ((xs.drop 8).drop (be32 (xs.take 4) + 4))
      ((ys.drop 8).drop (be32 (xs.take 4) + 4))

/-- CRC-equivalence of the chunk streams following the signature. -/
def crcEquivChunks (xs ys : List ℕ) : Bool := crcEquivF xs.length xs ys

/-- CRC-equivalence of two whole PNG byte streams: identical signatures
and CRC-equivalent chunk streams. -/
def crcEquivPng (d d' : List ℕ) : Bool :=
  (d.take 8 == d'.take 8) && crcEquivChunks (d.drop 8) (d'.drop 8)

lemma crcEquivF_length (fuel : ℕ) (xs ys : List ℕ)
    (h : crcEquivF fuel xs ys = true) : xs.length = ys.length := by
  cases fuel with
  | zero =>
    unfold crcEquivF at h
    split_ifs at h <;> exact congrArg List.length (by simpa using h)
  | succ f =>
    unfold crcEquivF at h
    split_ifs at h with hlt
    · exact congrArg List.length (by simpa using h)
    · simp only [Bool.and_eq_true, beq_iff_eq] at h
      exact h.1.1.1

lemma walkF_congr :
    ∀ fuel (xs ys : List ℕ) (st : WalkState),
      crcEquivF fuel xs ys = true → walkF fuel st xs = walkF fuel st ys := by
  intro fuel
  induction fuel with
  | zero =>
    intro xs ys st h
    have hxy : xs = ys := by
      unfold crcEquivF at h
      split_ifs at h <;> simpa using h
    rw [hxy]
  | succ f ih =>
    intro xs ys st h
    by_cases hlt : xs.length < 8
    · have hxy : xs = ys := by
        unfold crcEquivF at h
        rw [if_pos hlt] at h
        simpa using h
      rw [hxy]
    · unfold crcEquivF at h
      rw [if_neg hlt] at h
      simp only [Bool.and_eq_true, beq_iff_eq] at h
      obtain ⟨⟨⟨hlen, h8⟩, hchunk⟩, hrec⟩ := h
      have h4 : xs.take 4 = ys.take 4 := by
        have hc := congrArg (List.take 4) h8
        simpa [List.take_take] using hc
      have hct : (xs.drop 4).take 4 = (ys.drop 4).take 4 := by
        have hc := congrArg (List.drop 4) h8
        simpa [List.drop_take] using hc
      unfold walkF
      rw [if_neg hlt, if_neg (show ¬ ys.length < 8 by omega)]
      rw [← h4, ← hct, ← hchunk]
      cases hstep : stepChunk st ((xs.drop 4).take 4) ((xs.drop 8).take (be32 (xs.take 4))) with
      | error e => rfl
      | ok p =>
        rcases p with ⟨st', cont⟩
        cases cont with
        | false => rfl
        | true =>
          simp only
          exact ih _ _ st' hrec

/-- Filter reversal of one byte (image.py 388-399). -/
def reconByte (ftype rowv left up upLeft : ℕ) : Except String ℕ :=
  if ftype = 0 then Except.ok rowv
  else if ftype = 1 then Except.ok ((rowv + left) % 256)
  else if ftype = 2 then Except.ok ((rowv + up) % 256)
  else if ftype = 3 then Except.ok ((rowv + (left + up) / 2) % 256)
  else if ftype = 4 then
    Except.ok ((rowv + (paeth (left : ℤ) (up : ℤ) (upLeft : ℤ)).toNat) % 256)
  else Except.error "Unsupported PNG filter"

/-- Left-to-right reconstruction of one row (image.py 383-400): left,
up and up-left reference already-reconstructed bytes, zero when out of
bounds (the previous row is all zeros for the first row). -/
def reconRow (ftype bpp stride : ℕ) (prev row : List ℕ) : Except String (List ℕ) :=
  (List.range stride).foldlM
    (fun recon i =>
      let left : ℕ := if bpp ≤ i then recon.getD (i - bpp) 0 else 0
      let up : ℕ := prev.getD i 0
      let upLeft : ℕ := if bpp ≤ i then prev.getD (i - bpp) 0 else 0
      (reconByte ftype (row.getD i 0) left up upLeft).map (fun v => recon ++ [v]))
    []

/-- Per-row unfiltering loop (image.py 374-402): row y starts at byte
y*(stride+1) of the decompressed data, its first byte is the filter
type. -/
def unfilterRows (height stride bpp : ℕ) (raw : List ℕ) :
    Except String (List (List ℕ)) :=
  Prod.fst <$> (List.range height).foldlM
    (fun (acc : List (List ℕ) × List ℕ) y =>
      let idx : ℕ := y * (stride + 1)
      (reconRow (raw.getD idx 0) bpp stride acc.2 ((raw.drop (idx + 1)).take stride)).map
        (fun recon => (acc.1 ++ [recon], recon)))
    ([], List.replicate stride 0)

/-- RGBA pixel expansion of one reconstructed row (image.py 403-409):
3-channel rows get alpha 255. -/
def rowToPixels (width bpp : ℕ) (recon : List ℕ) : List ℕ :=
  (List.range width).foldl
    (fun acc x =>
      acc ++ [recon.getD (x * bpp) 0, recon.getD (x * bpp + 1) 0, recon.getD (x * bpp + 2) 0,
              if bpp = 4 then recon.getD (x * bpp + 3) 0 else 255])
    []

/-- Decoded image: width, height and the flat row-major RGBA bytes. -/
structure PngImage where
  width : ℕ
  height : ℕ
  pixels : List ℕ
deriving DecidableEq, Repr

/-- The 8-byte PNG signature. -/
def pngSignature : List ℕ := [137, 80, 78, 71, 13, 10, 26, 10]

/-- The pure-Python PNG decoder _decode_png (image.py 326-411), with
zlib.decompress abstracted as the inflate argument (none models a
decompression exception). -/
def decodePng (inflate : List ℕ → Option (List ℕ)) (data : List ℕ) :
    Except String PngImage :=
  if data.take 8 ≠ pngSignature then Except.error "Not a PNG file"
  else
    match walkChunks ⟨none, []⟩ (data.drop 8) with
    | Except.error e => Except.error e
    | Except.ok st =>
      match st.hdr with
      | none => Except.error "Malformed PNG: missing IHDR"
      | some (w, h, bitDepth, colorType, interlace) =>
        if interlace ≠ 0 then Except.error "Interlaced PNG is not supported"
        else if bitDepth ≠ 8 then Except.error "Only 8-bit PNG is supported"
        else if colorType ≠ 2 ∧ colorType ≠ 6 then Except.error "Unsupported PNG color type"
        else
          let bpp : ℕ := if colorType = 6 then 4 else 3
          let stride : ℕ := w * bpp
          match inflate st.idat with
          | none => Except.error "PNG decompression failed"
          | some raw =>
            if raw.length < (stride + 1) * h then Except.error "PNG data truncated"
            else
              match unfilterRows h stride bpp raw with
              | Except.error e => Except.error e
              | Except.ok rows => Except.ok ⟨w, h, (rows.map (rowToPixels w bpp)).flatten⟩

/-- C10: the decoder never inspects chunk CRC fields.  For any inflate
function and any two PNG byte streams that are identical except in the
4 CRC bytes following each chunk's data, decoding gives literally the
same result: both succeed with identical width, height and pixels, or
both fail with the same error. -/
theorem decode_png_crc_independent (inflate : List ℕ → Option (List ℕ))
    (d d' : List ℕ) (h : crcEquivPng d d' = true) :
    decodePng inflate d = decodePng inflate d' := by
  unfold crcEquivPng at h
  simp only [Bool.and_eq_true, beq_iff_eq] at h
  obtain ⟨h8, hch⟩ := h
  have hwalk : walkChunks ⟨none, []⟩ (d.drop 8) = walkChunks ⟨none, []⟩ (d'.drop 8) := by
    unfold crcEquivChunks at hch
    have hlen := crcEquivF_length _ _ _ hch
    unfold walkChunks
    rw [← hlen]
    exact walkF_congr _ _ _ _ hch
  unfold decodePng
  rw [h8, hwalk]

/-- A minimal chunked byte stream: signature, then one zero-length chunk
of unknown type with CRC bytes 1,2,3,4. -/
def crcDemoA : List ℕ :=
  [137, 80, 78, 71, 13, 10, 26, 10, 0, 0, 0, 0, 65, 66, 67, 68, 1, 2, 3, 4]

/-- The same stream with the CRC bytes replaced by 9,9,9,9. -/
def crcDemoB : List ℕ :=
  [137, 80, 78, 71, 13, 10, 26, 10, 0, 0, 0, 0, 65, 66, 67, 68, 9, 9, 9, 9]

theorem decode_png_crc_independent_witness :
    crcEquivPng crcDemoA crcDemoB = true ∧
      decodePng (fun _ => none) crcDemoA = decodePng (fun _ => none) crcDemoB :=
  ⟨by decide, decode_png_crc_independent (fun _ => none) crcDemoA crcDemoB (by decide)⟩

end ImageEngine
